import Mathlib

/-!
# Verification of the end-to-end encryption layer

Shallow embedding of the repository's cryptographic core:

* `src/src/utils/crypto.ts` — `generateKeyPair`, `encryptMessage`,
  `decryptMessage`: a wrapper around the NaCl `box` construction
  (Curve25519 Diffie–Hellman key agreement with XSalsa20-Poly1305
  authenticated encryption).
* `src/unnamed/part_002` — `IdentityVault.deriveKey` / `lock` / `unlock`:
  PBKDF2(SHA-256, 100000 iterations) key derivation and AES-256-GCM
  encryption of a secret string under a PIN.

The wrapper code is translated directly from the source.  The external
cryptographic primitives (`tweetnacl`, `tweetnacl-util`, the Web Crypto
API, `JSON.stringify`/`JSON.parse`, `TextEncoder`/`TextDecoder`) are not
part of the repository; they are modelled as idealized executable
functions that preserve the structure the source relies on:

* bytes are `Nat` values (well-formed bytes are `< 256`);
* the Curve25519 scalar is abstracted to a single `Nat`; the public key
  is an injective image of the scalar, and the Diffie–Hellman shared
  secret is the *unordered* pair of the two scalars — capturing the
  commutativity `scalarmult(a, base^b) = scalarmult(b, base^a)` and the
  injectivity of the ideal key agreement;
* an authenticated ciphertext is an injective, self-delimiting byte
  serialization of (key, nonce/iv, plaintext) guarded by a checksum
  byte; opening verifies the checksum and that the key and nonce match
  before releasing any plaintext (ideal AEAD authenticity: any single-bit
  modification of the ciphertext invalidates the checksum, and a wrong
  key or nonce fails the comparison);
* base64 transport encoding is modelled as an injective byte-to-text
  encoding whose decoder rejects text that does not denote bytes;
* UTF-8 encoding of text is modelled at code-point granularity.

Thrown JavaScript exceptions are modelled by `Option`: a function that
may throw returns `none` on the throwing paths, and the `try/catch` in
`decryptMessage` / `IdentityVault.unlock` becomes propagation of `none`.
Calls to the random source (`nacl.randomBytes`,
`crypto.getRandomValues`) are modelled by passing the drawn entropy
bytes as an explicit argument.
-/

set_option maxRecDepth 4000

/-! ## Self-delimiting byte encoding of naturals and byte lists

The serialized forms below model the opaque byte arrays produced by the
cryptographic primitives.  A `Nat` is encoded as its little-endian
base-255 digits (each `< 255`) followed by the terminator byte `255`;
a list is encoded as its encoded length followed by the encoded
elements.  Every emitted byte is `< 256`.
-/

/-- Little-endian base-255 digits of `n` (empty for `0`), with explicit
structural fuel so that the definition evaluates by `decide`. -/
def natToDigitsAux : Nat → Nat → List Nat
  | 0, _ => []
  | _ + 1, 0 => []
  | fuel + 1, n + 1 => ((n + 1) % 255) :: natToDigitsAux fuel ((n + 1) / 255)

/-- Little-endian base-255 digits of `n`. -/
def natToDigits (n : Nat) : List Nat :=
  natToDigitsAux n n

/-- Self-delimiting encoding of a natural number: digits then `255`. -/
def encodeNat (n : Nat) : List Nat :=
  natToDigits n ++ [255]

/-- Parse one encoded natural from the front of a byte list. -/
def parseNat : List Nat → Option (Nat × List Nat)
  | [] => none
  | b :: rest =>
    if b = 255 then some (0, rest)
    else if b < 255 then
      match parseNat rest with
      | some (n, r) => some (b + 255 * n, r)
      | none => none
    else none

/-- Parse exactly `count` encoded naturals from the front of a byte list. -/
def parseCount : Nat → List Nat → Option (List Nat × List Nat)
  | 0, bs => some ([], bs)
  | count + 1, bs =>
    match parseNat bs with
    | some (n, r) =>
      match parseCount count r with
      | some (xs, r') => some (n :: xs, r')
      | none => none
    | none => none

/-- Self-delimiting encoding of a list of naturals: encoded length, then
each element encoded in turn. -/
def encodeNatList (xs : List Nat) : List Nat :=
  encodeNat xs.length ++ xs.flatMap encodeNat

/-- Parse one encoded list of naturals from the front of a byte list. -/
def parseNatList (bs : List Nat) : Option (List Nat × List Nat) :=
  match parseNat bs with
  | some (len, r) => parseCount len r
  | none => none

/-- Modelled from the spec: `tweetnacl-util` `encodeBase64`, an injective
encoding of a byte sequence as text. -/
def encodeBase64 (bs : List Nat) : String :=
  String.mk (bs.map Char.ofNat)

/-- Modelled from the spec: `tweetnacl-util` `decodeBase64`; fails (the
library throws) on text that does not denote a byte sequence. -/
def decodeBase64 (s : String) : Option (List Nat) :=
  if s.data.all (fun c => c.toNat < 256) then some (s.data.map Char.toNat) else none

/-- Modelled from the spec: `tweetnacl-util` `decodeUTF8` /
`TextEncoder.encode`, the byte sequence of a text. -/
def decodeUTF8 (s : String) : List Nat :=
  s.data.map Char.toNat

/-- Modelled from the spec: `tweetnacl-util` `encodeUTF8` /
`TextDecoder.decode`, the text of a byte sequence. -/
def encodeUTF8 (bs : List Nat) : String :=
  String.mk (bs.map Char.ofNat)

/-! ## NaCl `box` model

`src/src/utils/crypto.ts` calls `tweetnacl`'s `box` construction:
Curve25519 key agreement followed by XSalsa20-Poly1305 authenticated
encryption.  The model abstracts the 32-byte Curve25519 scalar to a
`Nat`; the public key is an injective image of the scalar and the
shared secret is the unordered pair of the two scalars, so that
`sharedSecret a (curvePublicKey b) = sharedSecret b (curvePublicKey a)`
— the commutativity the real key agreement has — and distinct unordered
scalar pairs yield distinct shared secrets (ideal key agreement).  The
authenticated ciphertext is the self-delimiting serialization of
(shared secret, nonce, plaintext) guarded by a trailing checksum byte:
opening verifies the checksum and compares key and nonce before
releasing plaintext, which is how the Poly1305 tag check is idealized.
-/

/-- Modelled from the spec: the Curve25519 public key of a secret
scalar (`nacl.box.keyPair`'s scalar multiplication of the base point),
abstracted to an injective image of the scalar. -/
def curvePublicKey (s : Nat) : Nat :=
  s + 1

/-- Modelled from the spec: ideal Diffie–Hellman key agreement between
a secret scalar and a public key — the unordered pair of the two
underlying scalars. -/
def sharedSecret (sk pk : Nat) : Nat × Nat :=
  (min sk (pk - 1), max sk (pk - 1))

/-- Modelled from the spec: `tweetnacl`'s interpretation of a 32-byte
key array as the underlying scalar; fails (the library throws) when
the array is not a well-formed key. -/
def keyScalarOfBytes (bs : List Nat) : Option Nat :=
  match parseNat bs with
  | some (s, []) => some s
  | some (_, _ :: _) => none
  | none => none

/-- Checksum byte guarding an authenticated ciphertext (the idealized
Poly1305 tag): the XOR of all payload bytes. -/
def xorAll (bs : List Nat) : Nat :=
  bs.foldr (fun a r => a ^^^ r) 0

/-- Serialized payload of a `box` ciphertext: shared secret, nonce,
plaintext. -/
def boxPayload (k : Nat × Nat) (nonce msg : List Nat) : List Nat :=
  encodeNat k.1 ++ encodeNat k.2 ++ encodeNatList nonce ++ encodeNatList msg

/-- Modelled from the spec: `nacl.box` — authenticated encryption of
`msg` under the shared secret of `skBytes` and `pkBytes` with `nonce`;
fails (the library throws) on malformed keys. -/
def naclBox (msg nonce pkBytes skBytes : List Nat) : Option (List Nat) :=
  match keyScalarOfBytes skBytes, keyScalarOfBytes pkBytes with
  | some sk, some pk =>
    let payload := boxPayload (sharedSecret sk pk) nonce msg
    some (payload ++ [xorAll payload])
  | _, _ => none

/-- Split an authenticated ciphertext into its payload after verifying
the trailing checksum byte. -/
def checkedPayload (bs : List Nat) : Option (List Nat) :=
  match bs.getLast? with
  | some c => if c = xorAll bs.dropLast then some bs.dropLast else none
  | none => none

/-- Parse a `box` ciphertext into shared secret, nonce and plaintext,
verifying the checksum and that nothing trails the payload. -/
def parseBox (bs : List Nat) : Option ((Nat × Nat) × List Nat × List Nat) :=
  match checkedPayload bs with
  | some p =>
    match parseNat p with
    | some (k1, r1) =>
      match parseNat r1 with
      | some (k2, r2) =>
        match parseNatList r2 with
        | some (nonce, r3) =>
          match parseNatList r3 with
          | some (msg, r4) => if r4 = [] then some ((k1, k2), nonce, msg) else none
          | none => none
        | none => none
      | none => none
    | none => none
  | none => none

/-- Modelled from the spec: `nacl.box.open` — verifies authenticity
(checksum, shared secret and nonce) before releasing the plaintext;
returns `none` (the library returns `null` / throws) otherwise. -/
def naclBoxOpen (ct nonce pkBytes skBytes : List Nat) : Option (List Nat) :=
  match keyScalarOfBytes skBytes, keyScalarOfBytes pkBytes with
  | some sk, some pk =>
    match parseBox ct with
    | some (k, n, msg) =>
      if k = sharedSecret sk pk ∧ n = nonce then some msg else none
    | none => none
  | _, _ => none

/-- Modelled from the spec: `nacl.box.keyPair.fromSecretKey(...).publicKey`. -/
def naclPublicKeyFromSecretKey (skBytes : List Nat) : Option (List Nat) :=
  match keyScalarOfBytes skBytes with
  | some s => some (encodeNat (curvePublicKey s))
  | none => none

/-! ## `src/src/utils/crypto.ts` — the message-encryption wrapper

Direct translation of the wrapper.  Randomness (`nacl.randomBytes(24)`)
is an explicit `entropy` argument: the nonce is the first 24 bytes of
the drawn entropy.  `encryptMessage` has no `try/catch` in the source,
so a throwing primitive propagates — modelled by an `Option` result;
`decryptMessage` catches every exception and returns `null`, modelled
by returning `none` on those paths.
-/

/-- `KeyPair` of `crypto.ts`: base64-encoded public and secret key. -/
structure KeyPair where
  publicKey : String
  secretKey : String
deriving DecidableEq

/-- `EncryptedMessage` of `crypto.ts`. -/
structure EncryptedMessage where
  nonce : String
  ciphertext : String
  authorPublicKey : String
deriving DecidableEq

/-- `generateKeyPair` of `crypto.ts`: a fresh Curve25519 key pair from
the drawn randomness (the secret scalar), both halves base64-encoded. -/
def generateKeyPair (seed : Nat) : KeyPair :=
  { publicKey := encodeBase64 (encodeNat (curvePublicKey seed)),
    secretKey := encodeBase64 (encodeNat seed) }

/-- `encryptMessage` of `crypto.ts`.  `entropy` is the randomness drawn
by `nacl.randomBytes`; the nonce is its first 24 bytes.  `none` models
an exception thrown by a primitive (malformed base64 or key). -/
def encryptMessage (message mySecretKey theirPublicKey : String) (entropy : List Nat) :
    Option EncryptedMessage :=
  let nonce := entropy.take 24
  let messageUint8 := decodeUTF8 message
  match decodeBase64 mySecretKey, decodeBase64 theirPublicKey with
  | some secretKeyUint8, some publicKeyUint8 =>
    match naclBox messageUint8 nonce publicKeyUint8 secretKeyUint8,
          naclPublicKeyFromSecretKey secretKeyUint8 with
    | some encrypted, some authorPub =>
      some { nonce := encodeBase64 nonce,
             ciphertext := encodeBase64 encrypted,
             authorPublicKey := encodeBase64 authorPub }
    | _, _ => none
  | _, _ => none

/-- `decryptMessage` of `crypto.ts`.  Every failure — malformed base64,
malformed key, failed authentication — reaches the `catch` (or the
`if (!decrypted)` test) and yields `null`, modelled as `none`. -/
def decryptMessage (encryptedMsg : EncryptedMessage) (mySecretKey theirPublicKey : String) :
    Option String :=
  match decodeBase64 encryptedMsg.nonce, decodeBase64 encryptedMsg.ciphertext,
        decodeBase64 mySecretKey, decodeBase64 theirPublicKey with
  | some nonceUint8, some ciphertextUint8, some secretKeyUint8, some publicKeyUint8 =>
    match naclBoxOpen ciphertextUint8 nonceUint8 publicKeyUint8 secretKeyUint8 with
    | some decrypted => some (encodeUTF8 decrypted)
    | none => none
  | _, _, _, _ => none

/-! ## Tamper detection

A single-bit flip in a produced ciphertext or nonce is modelled at the
byte level: bit `i % 8` of byte `i / 8` is XORed into the byte
sequence.  A flip inside the payload changes the XOR of the payload and
therefore disagrees with the stored checksum byte; a flip of the
checksum byte itself disagrees with the unchanged payload; a flip in
the nonce makes the transported nonce differ from the nonce bound into
the ciphertext.  In all cases `decryptMessage` returns `none`.
-/

/-- Flip bit `i % 8` of byte `i / 8` of a byte sequence. -/
def flipBit (bs : List Nat) (i : Nat) : List Nat :=
  bs.set (i / 8) (bs.getD (i / 8) 0 ^^^ 2 ^ (i % 8))

/-! ## `src/unnamed/part_002` — the `IdentityVault`

PBKDF2 is modelled as an ideal key-derivation function: the derived key
is the record of everything `deriveKey` feeds `crypto.subtle.deriveKey`
— the PIN bytes, the salt, the iteration count, the hash name, and the
derived key length — so two derivations agree exactly when those
parameters agree.  AES-256-GCM is modelled like the `box` cipher: the
ciphertext is the checksummed self-delimiting serialization of the key
parameters, the IV and the plaintext, and decryption verifies the
checksum and compares the key parameters and IV before releasing the
plaintext (the idealized GCM tag check).  `JSON.stringify`/`JSON.parse`
of the `{salt, iv, data}` package is modelled as an injective text
rendering with a parser that rejects any other text; the rendering
reuses the byte-to-text injection of the base64 model.
-/

/-- Modelled from the spec: the key `crypto.subtle.deriveKey` derives —
determined by the PBKDF2 parameters fed to it. -/
structure DerivedKey where
  pinBytes : List Nat
  salt : List Nat
  iterations : Nat
  hashName : String
  keyLength : Nat
deriving DecidableEq

/-- Serialized payload of an AES-GCM ciphertext: the identifying key
parameters, the IV and the plaintext. -/
def gcmPayload (key : DerivedKey) (iv msg : List Nat) : List Nat :=
  encodeNatList key.pinBytes ++ encodeNatList key.salt ++ encodeNat key.iterations
    ++ encodeNatList iv ++ encodeNatList msg

/-- Modelled from the spec: `crypto.subtle.encrypt` with AES-256-GCM —
ciphertext with an embedded authentication tag, idealized as the
checksummed serialization of key parameters, IV and plaintext. -/
def aesGcmEncrypt (key : DerivedKey) (iv msg : List Nat) : List Nat :=
  gcmPayload key iv msg ++ [xorAll (gcmPayload key iv msg)]

/-- Parse an AES-GCM ciphertext into key parameters, IV and plaintext,
verifying the checksum and that nothing trails the payload. -/
def parseGcm (bs : List Nat) : Option (List Nat × List Nat × Nat × List Nat × List Nat) :=
  match checkedPayload bs with
  | some p =>
    match parseNatList p with
    | some (pinB, r1) =>
      match parseNatList r1 with
      | some (salt, r2) =>
        match parseNat r2 with
        | some (iters, r3) =>
          match parseNatList r3 with
          | some (iv, r4) =>
            match parseNatList r4 with
            | some (msg, r5) => if r5 = [] then some (pinB, salt, iters, iv, msg) else none
            | none => none
          | none => none
        | none => none
      | none => none
    | none => none
  | none => none

/-- Modelled from the spec: `crypto.subtle.decrypt` with AES-GCM — tag
verification (checksum plus agreement of the key parameters and the IV)
before any plaintext is released; throws (modelled `none`) otherwise. -/
def aesGcmDecrypt (key : DerivedKey) (iv data : List Nat) : Option (List Nat) :=
  match parseGcm data with
  | some (pinB, salt, iters, iv', msg) =>
    if pinB = key.pinBytes ∧ salt = key.salt ∧ iters = key.iterations ∧ iv' = iv then
      some msg
    else none
  | none => none

/-- The `{salt, iv, data}` record `lock` serializes. -/
structure VaultPackage where
  salt : List Nat
  iv : List Nat
  data : List Nat
deriving DecidableEq

/-- Modelled from the spec: `JSON.stringify` of the package — an
injective text rendering of the three byte arrays. -/
def vaultStringify (pkg : VaultPackage) : String :=
  String.mk ((encodeNatList pkg.salt ++ encodeNatList pkg.iv ++ encodeNatList pkg.data).map
    Char.ofNat)

/-- Modelled from the spec: `JSON.parse` plus field extraction — fails
(the source's `catch` yields `null`) on any text that is not the
rendering of a package. -/
def vaultParse (s : String) : Option VaultPackage :=
  match decodeBase64 s with
  | some bs =>
    match parseNatList bs with
    | some (salt, r1) =>
      match parseNatList r1 with
      | some (iv, r2) =>
        match parseNatList r2 with
        | some (data, r3) =>
          if r3 = [] then some { salt := salt, iv := iv, data := data } else none
        | none => none
      | none => none
    | none => none
  | none => none

namespace IdentityVault

/-- `IdentityVault.deriveKey`: PBKDF2 over the PIN bytes and salt with
100000 iterations of SHA-256, yielding a 256-bit AES-GCM key. -/
def deriveKey (pin : String) (salt : List Nat) : DerivedKey :=
  { pinBytes := decodeUTF8 pin
    salt := salt
    iterations := 100000
    hashName := "SHA-256"
    keyLength := 256 }

/-- `IdentityVault.lock`: draws a 16-byte salt and a 12-byte IV from
the entropy (`crypto.getRandomValues`), derives the key from the PIN
and salt, AES-GCM-encrypts the secret, and serializes
`{salt, iv, data}`. -/
def lock (secretData pin : String) (entropy : List Nat) : String :=
  let salt := entropy.take 16
  let iv := (entropy.drop 16).take 12
  let key := deriveKey pin salt
  let encryptedContent := aesGcmEncrypt key iv (decodeUTF8 secretData)
  vaultStringify { salt := salt, iv := iv, data := encryptedContent }

/-- `IdentityVault.unlock`: parses the blob, re-derives the key from
the PIN and the stored salt, attempts AES-GCM decryption, and returns
`null` (`none`) on any failure via the surrounding `try/catch`. -/
def unlock (vaultString pin : String) : Option String :=
  match vaultParse vaultString with
  | some pkg =>
    match aesGcmDecrypt (deriveKey pin pkg.salt) pkg.iv pkg.data with
    | some decryptedBuffer => some (encodeUTF8 decryptedBuffer)
    | none => none
  | none => none

end IdentityVault

/-- Concrete package produced by locking `"sk"` under PIN `"1234"`
with entropy bytes `0..27` (non-determinism witness input). -/
def lockPackageA : VaultPackage :=
  { salt := List.take 16 (List.range 28),
    iv := List.take 12 (List.drop 16 (List.range 28)),
    data := aesGcmEncrypt (IdentityVault.deriveKey "1234" (List.take 16 (List.range 28)))
      (List.take 12 (List.drop 16 (List.range 28))) (decodeUTF8 "sk") }

/-- Concrete package produced by locking `"sk"` under PIN `"1234"`
with entropy bytes `100..127` (non-determinism witness input). -/
def lockPackageB : VaultPackage :=
  { salt := List.take 16 (List.map (fun x => x + 100) (List.range 28)),
    iv := List.take 12 (List.drop 16 (List.map (fun x => x + 100) (List.range 28))),
    data := aesGcmEncrypt
      (IdentityVault.deriveKey "1234" (List.take 16 (List.map (fun x => x + 100) (List.range 28))))
      (List.take 12 (List.drop 16 (List.map (fun x => x + 100) (List.range 28))))
      (decodeUTF8 "sk") }

theorem natToDigitsAux_spec (fuel : Nat) :
    ∀ n, n ≤ fuel →
      ∀ rest, parseNat (natToDigitsAux fuel n ++ 255 :: rest) = some (n, rest) := by
  induction fuel with
  | zero =>
    intro n hn rest
    interval_cases n
    simp [natToDigitsAux, parseNat]
  | succ fuel ih =>
    intro n hn rest
    match n with
    | 0 => simp [natToDigitsAux, parseNat]
    | n + 1 =>
      have hd : (n + 1) % 255 < 255 := Nat.mod_lt _ (by omega)
      have hq : (n + 1) / 255 ≤ fuel := by
        have := Nat.div_le_self (n + 1) 255
        have := Nat.div_lt_self (Nat.succ_pos n) (by omega : 1 < 255)
        omega
      simp only [natToDigitsAux, List.cons_append, parseNat, List.append_eq]
      rw [if_neg (by omega), if_pos hd, ih _ hq rest]
      have := Nat.mod_add_div (n + 1) 255
      simp [this]

/-- Parsing inverts `encodeNat`, leaving the rest of the input intact. -/
theorem parseNat_encodeNat (n : Nat) (rest : List Nat) :
    parseNat (encodeNat n ++ rest) = some (n, rest) := by
  simpa [encodeNat] using natToDigitsAux_spec n n (Nat.le_refl n) rest

theorem natToDigitsAux_lt (fuel : Nat) :
    ∀ n, ∀ b ∈ natToDigitsAux fuel n, b < 256 := by
  induction fuel with
  | zero => intro n b hb; simp [natToDigitsAux] at hb
  | succ fuel ih =>
    intro n b hb
    match n with
    | 0 => simp [natToDigitsAux] at hb
    | n + 1 =>
      simp only [natToDigitsAux, List.mem_cons] at hb
      rcases hb with h | h
      · have : (n + 1) % 255 < 255 := Nat.mod_lt _ (by omega)
        omega
      · exact ih _ _ h

/-- Every byte emitted by `encodeNat` is a well-formed byte. -/
theorem encodeNat_lt (n : Nat) : ∀ b ∈ encodeNat n, b < 256 := by
  intro b hb
  simp only [encodeNat, natToDigits, List.mem_append, List.mem_singleton] at hb
  rcases hb with h | h
  · exact natToDigitsAux_lt n n b h
  · omega

theorem parseCount_flatMap (xs : List Nat) (rest : List Nat) :
    parseCount xs.length (xs.flatMap encodeNat ++ rest) = some (xs, rest) := by
  induction xs with
  | nil => simp [parseCount]
  | cons x xs ih =>
    simp only [List.length_cons, List.flatMap_cons, List.append_assoc, parseCount,
      parseNat_encodeNat, ih]

/-- Parsing inverts `encodeNatList`, leaving the rest of the input intact. -/
theorem parseNatList_encodeNatList (xs : List Nat) (rest : List Nat) :
    parseNatList (encodeNatList xs ++ rest) = some (xs, rest) := by
  simp [parseNatList, encodeNatList, parseNat_encodeNat, parseCount_flatMap]

theorem parseNatList_encodeNatList_nil (xs : List Nat) :
    parseNatList (encodeNatList xs) = some (xs, []) := by
  simpa using parseNatList_encodeNatList xs []

/-- Every byte emitted by `encodeNatList` is a well-formed byte. -/
theorem encodeNatList_lt (xs : List Nat) : ∀ b ∈ encodeNatList xs, b < 256 := by
  intro b hb
  simp only [encodeNatList, List.mem_append, List.mem_flatMap] at hb
  rcases hb with h | ⟨x, _, h⟩
  · exact encodeNat_lt _ b h
  · exact encodeNat_lt _ b h

/-! ## Text encodings

Models of the `tweetnacl-util` helpers and of `TextEncoder` /
`TextDecoder`.  Base64 is modelled as an injective byte-to-text
encoding whose decoder rejects any text not denoting a byte sequence;
UTF-8 is modelled at code-point granularity (one code unit per
character), so `decodeUTF8` is injective and `encodeUTF8` inverts it.
-/

theorem Char.toNat_ofNat_of_lt {n : Nat} (h : n < 256) : (Char.ofNat n).toNat = n := by
  have hv : n.isValidChar := Or.inl (by omega)
  rw [Char.ofNat, dif_pos hv]
  rfl

theorem Char.toNat_injective : Function.Injective Char.toNat := by
  intro a b h
  have := Char.ofNat_toNat a
  rw [h, Char.ofNat_toNat] at this
  exact this.symm

theorem decodeBase64_encodeBase64 (bs : List Nat) (h : ∀ b ∈ bs, b < 256) :
    decodeBase64 (encodeBase64 bs) = some bs := by
  have hall : ∀ c ∈ bs.map Char.ofNat, c.toNat < 256 := by
    intro c hc
    rcases List.mem_map.1 hc with ⟨b, hb, rfl⟩
    rw [Char.toNat_ofNat_of_lt (h b hb)]
    exact h b hb
  simp only [decodeBase64, encodeBase64, List.all_eq_true]
  rw [if_pos (fun c hc => decide_eq_true (hall c hc))]
  congr 1
  rw [List.map_map]
  exact List.map_congr_left (fun b hb => Char.toNat_ofNat_of_lt (h b hb)) |>.trans
    (List.map_id bs)

theorem encodeBase64_injOn (b1 b2 : List Nat) (h1 : ∀ b ∈ b1, b < 256)
    (h2 : ∀ b ∈ b2, b < 256) (he : encodeBase64 b1 = encodeBase64 b2) : b1 = b2 := by
  have := decodeBase64_encodeBase64 b1 h1
  rw [he, decodeBase64_encodeBase64 b2 h2] at this
  exact (Option.some.injEq _ _ ▸ this).symm

theorem encodeUTF8_decodeUTF8 (s : String) : encodeUTF8 (decodeUTF8 s) = s := by
  simp only [encodeUTF8, decodeUTF8, List.map_map]
  have : (fun c => Char.ofNat (Char.toNat c)) = (id : Char → Char) := by
    funext c
    exact Char.ofNat_toNat c
  rw [show Char.ofNat ∘ Char.toNat = id from funext fun c => Char.ofNat_toNat c]
  cases s
  simp

theorem decodeUTF8_injective (s1 s2 : String) (h : decodeUTF8 s1 = decodeUTF8 s2) :
    s1 = s2 := by
  have := encodeUTF8_decodeUTF8 s1
  rw [h, encodeUTF8_decodeUTF8 s2] at this
  exact this.symm

theorem sharedSecret_curve_comm (a b : Nat) :
    sharedSecret a (curvePublicKey b) = sharedSecret b (curvePublicKey a) := by
  simp [sharedSecret, curvePublicKey, Nat.min_comm, Nat.max_comm]

theorem checkedPayload_append (p : List Nat) :
    checkedPayload (p ++ [xorAll p]) = some p := by
  simp [checkedPayload, List.getLast?_concat, List.dropLast_concat]

/-- Parsing inverts `box` serialization. -/
theorem parseBox_payload (k : Nat × Nat) (nonce msg : List Nat) :
    parseBox (boxPayload k nonce msg ++ [xorAll (boxPayload k nonce msg)])
      = some (k, nonce, msg) := by
  rw [parseBox, checkedPayload_append]
  have h1 : boxPayload k nonce msg
      = encodeNat k.1 ++ (encodeNat k.2 ++ (encodeNatList nonce ++ (encodeNatList msg ++ []))) := by
    simp [boxPayload]
  rw [h1]
  simp [parseNat_encodeNat, parseNatList_encodeNatList, parseNatList_encodeNatList_nil]

/-- Opening with the matching shared secret and nonce recovers the
plaintext. -/
theorem naclBoxOpen_naclBox (msg nonce pkB skA pkA skB : List Nat) (a b : Nat)
    (hskA : keyScalarOfBytes skA = some a)
    (hpkB : keyScalarOfBytes pkB = some (curvePublicKey b))
    (hskB : keyScalarOfBytes skB = some b)
    (hpkA : keyScalarOfBytes pkA = some (curvePublicKey a))
    (ct : List Nat) (hct : naclBox msg nonce pkB skA = some ct) :
    naclBoxOpen ct nonce pkA skB = some msg := by
  rw [naclBox, hskA, hpkB] at hct
  simp only [Option.some.injEq] at hct
  rw [naclBoxOpen, hskB, hpkA, ← hct, parseBox_payload]
  rw [sharedSecret_curve_comm]
  simp

theorem parseNat_encodeNat_nil (n : Nat) : parseNat (encodeNat n) = some (n, []) := by
  simpa using parseNat_encodeNat n []

theorem keyScalarOfBytes_encodeNat (s : Nat) :
    keyScalarOfBytes (encodeNat s) = some s := by
  rw [keyScalarOfBytes, parseNat_encodeNat_nil]

theorem decodeBase64_secretKey (seed : Nat) :
    decodeBase64 (generateKeyPair seed).secretKey = some (encodeNat seed) := by
  exact decodeBase64_encodeBase64 _ (encodeNat_lt seed)

theorem decodeBase64_publicKey (seed : Nat) :
    decodeBase64 (generateKeyPair seed).publicKey
      = some (encodeNat (curvePublicKey seed)) := by
  exact decodeBase64_encodeBase64 _ (encodeNat_lt _)

theorem xorAll_lt (bs : List Nat) (h : ∀ b ∈ bs, b < 256) : xorAll bs < 256 := by
  induction bs with
  | nil => simp [xorAll]
  | cons x xs ih =>
    rw [xorAll, List.foldr_cons]
    have hx : x < 2 ^ 8 := h x (List.mem_cons_self x xs)
    have hxs : xorAll xs < 2 ^ 8 := ih fun b hb => h b (List.mem_cons_of_mem x hb)
    exact Nat.xor_lt_two_pow hx hxs

theorem boxPayload_lt (k : Nat × Nat) (nonce msg : List Nat) :
    ∀ b ∈ boxPayload k nonce msg, b < 256 := by
  intro b hb
  simp only [boxPayload, List.mem_append] at hb
  rcases hb with ((h | h) | h) | h
  · exact encodeNat_lt _ b h
  · exact encodeNat_lt _ b h
  · exact encodeNatList_lt _ b h
  · exact encodeNatList_lt _ b h

/-- Every byte of a `box` ciphertext is a well-formed byte. -/
theorem naclBox_mem_lt (msg nonce pkBytes skBytes ct : List Nat)
    (h : naclBox msg nonce pkBytes skBytes = some ct) : ∀ b ∈ ct, b < 256 := by
  rw [naclBox] at h
  match hsk : keyScalarOfBytes skBytes, hpk : keyScalarOfBytes pkBytes with
  | some sk, some pk =>
    rw [hsk, hpk] at h
    simp only [Option.some.injEq] at h
    intro b hb
    rw [← h] at hb
    simp only [List.mem_append, List.mem_singleton] at hb
    rcases hb with hb | hb
    · exact boxPayload_lt _ _ _ b hb
    · exact hb ▸ xorAll_lt _ (boxPayload_lt _ _ _)
  | some _, none => rw [hsk, hpk] at h; exact absurd h (by simp)
  | none, some _ => rw [hsk, hpk] at h; exact absurd h (by simp)
  | none, none => rw [hsk, hpk] at h; exact absurd h (by simp)

/-- Fully computed form of `encryptMessage` on keys produced by
`generateKeyPair`. -/
theorem encryptMessage_generated (P : String) (a b : Nat) (entropy : List Nat) :
    encryptMessage P (generateKeyPair a).secretKey (generateKeyPair b).publicKey entropy
      = some { nonce := encodeBase64 (entropy.take 24),
               ciphertext := encodeBase64
                 (boxPayload (sharedSecret a (curvePublicKey b)) (entropy.take 24)
                    (decodeUTF8 P)
                  ++ [xorAll (boxPayload (sharedSecret a (curvePublicKey b))
                        (entropy.take 24) (decodeUTF8 P))]),
               authorPublicKey := encodeBase64 (encodeNat (curvePublicKey a)) } := by
  simp only [encryptMessage, decodeBase64_secretKey, decodeBase64_publicKey, naclBox,
    naclPublicKeyFromSecretKey, keyScalarOfBytes_encodeNat]

/-- **C1.** For every plaintext `P`, every two key pairs `A`, `B`
produced by `generateKeyPair` and every draw of well-formed entropy
bytes, decrypting `encryptMessage P A.secretKey B.publicKey` with
`B.secretKey` and `A.publicKey` returns exactly `P`. -/
theorem encrypt_decrypt_roundtrip (P : String) (a b : Nat) (entropy : List Nat)
    (hent : ∀ x ∈ entropy, x < 256) :
    (encryptMessage P (generateKeyPair a).secretKey (generateKeyPair b).publicKey
        entropy).bind
      (fun c => decryptMessage c (generateKeyPair b).secretKey (generateKeyPair a).publicKey)
      = some P := by
  rw [encryptMessage_generated, Option.some_bind]
  have hnonce : ∀ x ∈ entropy.take 24, x < 256 := fun x hx => hent x (List.mem_of_mem_take hx)
  have hct : naclBox (decodeUTF8 P) (entropy.take 24) (encodeNat (curvePublicKey b))
      (encodeNat a)
      = some (boxPayload (sharedSecret a (curvePublicKey b)) (entropy.take 24) (decodeUTF8 P)
          ++ [xorAll (boxPayload (sharedSecret a (curvePublicKey b)) (entropy.take 24)
                (decodeUTF8 P))]) := by
    simp only [naclBox, keyScalarOfBytes_encodeNat]
  rw [decryptMessage]
  simp only [decodeBase64_encodeBase64 _ hnonce,
    decodeBase64_encodeBase64 _ (naclBox_mem_lt _ _ _ _ _ hct),
    decodeBase64_secretKey, decodeBase64_publicKey, naclBoxOpen, keyScalarOfBytes_encodeNat,
    parseBox_payload, sharedSecret_curve_comm b a]
  simp [encodeUTF8_decodeUTF8]

/-- **C2 fails on the code.**  `A` encrypts `"ping"` to `B`; `A`'s own
call `decryptMessage(c, A.secretKey, B.publicKey)` — the very arguments
the claim says must fail — recovers `"ping"`.  `nacl.box.open` is
invoked with exactly the key arguments `nacl.box` was invoked with, so
it recomputes the same shared secret and succeeds: the `box`
construction is symmetric in the key pair, not one-way. -/
theorem sender_can_decrypt_own_ciphertext :
    (encryptMessage "ping" (generateKeyPair 0).secretKey (generateKeyPair 1).publicKey
        (List.range 24)).bind
      (fun c => decryptMessage c (generateKeyPair 0).secretKey (generateKeyPair 1).publicKey)
      = some "ping" := by
  decide

/-- **C2 (amended).**  The sender's own call
`decryptMessage(c, A.secretKey, B.publicKey)` returns exactly `P` — the
shared secret is symmetric in the key pair, so the sender *can* open
their own sent ciphertext with those arguments.  The asymmetry the
application actually hits is different: decrypting with the *author's*
public key as the peer key, `decryptMessage(c, A.secretKey,
A.publicKey)`, fails (returns `null`) whenever `A ≠ B`. -/
theorem sender_decrypt_own_arguments (P : String) (a b : Nat) (entropy : List Nat)
    (hent : ∀ x ∈ entropy, x < 256) (hab : a ≠ b) :
    (encryptMessage P (generateKeyPair a).secretKey (generateKeyPair b).publicKey
        entropy).bind
      (fun c => decryptMessage c (generateKeyPair a).secretKey (generateKeyPair b).publicKey)
      = some P ∧
    (encryptMessage P (generateKeyPair a).secretKey (generateKeyPair b).publicKey
        entropy).bind
      (fun c => decryptMessage c (generateKeyPair a).secretKey (generateKeyPair a).publicKey)
      = none := by
  have hnonce : ∀ x ∈ entropy.take 24, x < 256 := fun x hx => hent x (List.mem_of_mem_take hx)
  have hct : naclBox (decodeUTF8 P) (entropy.take 24) (encodeNat (curvePublicKey b))
      (encodeNat a)
      = some (boxPayload (sharedSecret a (curvePublicKey b)) (entropy.take 24) (decodeUTF8 P)
          ++ [xorAll (boxPayload (sharedSecret a (curvePublicKey b)) (entropy.take 24)
                (decodeUTF8 P))]) := by
    simp only [naclBox, keyScalarOfBytes_encodeNat]
  constructor
  · rw [encryptMessage_generated, Option.some_bind, decryptMessage]
    simp only [decodeBase64_encodeBase64 _ hnonce,
      decodeBase64_encodeBase64 _ (naclBox_mem_lt _ _ _ _ _ hct),
      decodeBase64_secretKey, decodeBase64_publicKey, naclBoxOpen, keyScalarOfBytes_encodeNat,
      parseBox_payload]
    simp [encodeUTF8_decodeUTF8]
  · rw [encryptMessage_generated, Option.some_bind, decryptMessage]
    simp only [decodeBase64_encodeBase64 _ hnonce,
      decodeBase64_encodeBase64 _ (naclBox_mem_lt _ _ _ _ _ hct),
      decodeBase64_secretKey, decodeBase64_publicKey, naclBoxOpen, keyScalarOfBytes_encodeNat,
      parseBox_payload]
    have hk : sharedSecret a (curvePublicKey b) ≠ sharedSecret a (curvePublicKey a) := by
      intro heq
      have h1 := congrArg Prod.fst heq
      have h2 := congrArg Prod.snd heq
      simp only [sharedSecret, curvePublicKey, Nat.add_sub_cancel] at h1 h2
      omega
    simp [hk]

/-- **C7.**  Two calls to `encryptMessage` with identical plaintext and
identical key pairs whose drawn 24 random nonce bytes differ produce
`EncryptedMessage`s with different nonces and different ciphertexts. -/
theorem encryptMessage_fresh_nonce (P : String) (a b : Nat) (e1 e2 : List Nat)
    (h1 : ∀ x ∈ e1, x < 256) (h2 : ∀ x ∈ e2, x < 256)
    (hne : e1.take 24 ≠ e2.take 24)
    (m1 m2 : EncryptedMessage)
    (hc1 : encryptMessage P (generateKeyPair a).secretKey (generateKeyPair b).publicKey e1
      = some m1)
    (hc2 : encryptMessage P (generateKeyPair a).secretKey (generateKeyPair b).publicKey e2
      = some m2) :
    m1.nonce ≠ m2.nonce ∧ m1.ciphertext ≠ m2.ciphertext := by
  rw [encryptMessage_generated] at hc1 hc2
  simp only [Option.some.injEq] at hc1 hc2
  subst hc1
  subst hc2
  have hn1 : ∀ x ∈ e1.take 24, x < 256 := fun x hx => h1 x (List.mem_of_mem_take hx)
  have hn2 : ∀ x ∈ e2.take 24, x < 256 := fun x hx => h2 x (List.mem_of_mem_take hx)
  have hctb : ∀ (e : List Nat),
      ∀ x ∈ boxPayload (sharedSecret a (curvePublicKey b)) (e.take 24) (decodeUTF8 P)
          ++ [xorAll (boxPayload (sharedSecret a (curvePublicKey b)) (e.take 24)
                (decodeUTF8 P))], x < 256 := by
    intro e x hx
    simp only [List.mem_append, List.mem_singleton] at hx
    rcases hx with hx | hx
    · exact boxPayload_lt _ _ _ x hx
    · exact hx ▸ xorAll_lt _ (boxPayload_lt _ _ _)
  constructor
  · intro h
    exact hne (encodeBase64_injOn _ _ hn1 hn2 h)
  · intro h
    have hcteq := encodeBase64_injOn _ _ (hctb e1) (hctb e2) h
    have hp1 := parseBox_payload (sharedSecret a (curvePublicKey b)) (e1.take 24) (decodeUTF8 P)
    have hp2 := parseBox_payload (sharedSecret a (curvePublicKey b)) (e2.take 24) (decodeUTF8 P)
    rw [hcteq, hp2] at hp1
    simp only [Option.some.injEq, Prod.mk.injEq] at hp1
    exact hne hp1.2.1.symm

theorem xorAll_cons (x : Nat) (xs : List Nat) : xorAll (x :: xs) = x ^^^ xorAll xs :=
  rfl

theorem xor_left_cancel (a b : Nat) : a ^^^ (a ^^^ b) = b := by
  rw [← Nat.xor_assoc, Nat.xor_self, Nat.zero_xor]

theorem xor_two_pow_ne (b k : Nat) : b ^^^ 2 ^ k ≠ b := by
  intro h
  have h2 := congrArg (fun t => b ^^^ t) h
  simp only [xor_left_cancel, Nat.xor_self] at h2
  have hp : 0 < 2 ^ k := Nat.pos_pow_of_pos k (by omega)
  omega

theorem xorAll_set (l : List Nat) (j v : Nat) (h : j < l.length) :
    xorAll (l.set j v) = xorAll l ^^^ (l.getD j 0 ^^^ v) := by
  induction l generalizing j with
  | nil => simp at h
  | cons x xs ih =>
    match j with
    | 0 =>
      show xorAll (v :: xs) = xorAll (x :: xs) ^^^ (x ^^^ v)
      rw [xorAll_cons, xorAll_cons, Nat.xor_comm x (xorAll xs), Nat.xor_assoc,
        xor_left_cancel, Nat.xor_comm (xorAll xs) v]
    | j + 1 =>
      show xorAll (x :: xs.set j v) = xorAll (x :: xs) ^^^ (xs.getD j 0 ^^^ v)
      rw [xorAll_cons, xorAll_cons, ih j (by simpa using Nat.lt_of_succ_lt_succ h),
        Nat.xor_assoc]

theorem flipBit_mem_lt (bs : List Nat) (i : Nat) (h : ∀ x ∈ bs, x < 256) :
    ∀ x ∈ flipBit bs i, x < 256 := by
  intro x hx
  rcases List.mem_or_eq_of_mem_set hx with hm | rfl
  · exact h x hm
  · have hgd : bs.getD (i / 8) 0 < 256 := by
      by_cases hlen : i / 8 < bs.length
      · rw [List.getD_eq_getElem?_getD, List.getElem?_eq_getElem hlen]
        exact h _ (List.getElem_mem hlen)
      · rw [List.getD_eq_getElem?_getD, List.getElem?_eq_none (by omega)]
        simp
    have hpow : (2 : Nat) ^ (i % 8) < 256 := by
      calc (2 : Nat) ^ (i % 8) ≤ 2 ^ 7 :=
            Nat.pow_le_pow_right (by omega) (by omega)
        _ < 256 := by omega
    exact Nat.xor_lt_two_pow (n := 8) hgd hpow

theorem flipBit_ne (bs : List Nat) (i : Nat) (h : i / 8 < bs.length) :
    flipBit bs i ≠ bs := by
  intro he
  have h2 := congrArg (fun l => l[i / 8]?) he
  simp only [flipBit, List.getElem?_set_self h] at h2
  rw [List.getElem?_eq_getElem h, List.getD_eq_getElem?_getD,
    List.getElem?_eq_getElem h] at h2
  have h3 : bs[i / 8] ^^^ 2 ^ (i % 8) = bs[i / 8] := Option.some.inj h2
  exact xor_two_pow_ne _ _ h3

/-- A single-bit flip anywhere in a checksummed payload is detected. -/
theorem checkedPayload_flipBit (p : List Nat) (i : Nat) (h : i / 8 < p.length + 1) :
    checkedPayload (flipBit (p ++ [xorAll p]) i) = none := by
  by_cases hj : i / 8 < p.length
  · have hset : flipBit (p ++ [xorAll p]) i
        = p.set (i / 8) (p.getD (i / 8) 0 ^^^ 2 ^ (i % 8)) ++ [xorAll p] := by
      rw [flipBit]
      have hgd : (p ++ [xorAll p]).getD (i / 8) 0 = p.getD (i / 8) 0 := by
        rw [List.getD_eq_getElem?_getD, List.getD_eq_getElem?_getD,
          List.getElem?_append_left hj]
      rw [hgd]
      exact List.set_append_left _ _ hj
    rw [hset, checkedPayload, List.getLast?_concat, List.dropLast_concat]
    have hx : xorAll (p.set (i / 8) (p.getD (i / 8) 0 ^^^ 2 ^ (i % 8)))
        = xorAll p ^^^ 2 ^ (i % 8) := by
      rw [xorAll_set _ _ _ hj, xor_left_cancel]
    have hcc : xorAll p ≠ xorAll p ^^^ 2 ^ (i % 8) :=
      fun hc => xor_two_pow_ne (xorAll p) (i % 8) hc.symm
    have hx' : xorAll (p.set (i / 8) (p[i / 8]?.getD 0 ^^^ 2 ^ (i % 8)))
        = xorAll p ^^^ 2 ^ (i % 8) := by
      rw [← List.getD_eq_getElem?_getD]
      exact hx
    simp [hx', hcc]
  · have hj' : i / 8 = p.length := by omega
    have hset : flipBit (p ++ [xorAll p]) i = p ++ [xorAll p ^^^ 2 ^ (i % 8)] := by
      rw [flipBit]
      have hgd : (p ++ [xorAll p]).getD (i / 8) 0 = xorAll p := by
        rw [List.getD_eq_getElem?_getD, hj', List.getElem?_append_right (Nat.le_refl _)]
        simp
      rw [hgd, List.set_append_right _ _ (by omega), hj', Nat.sub_self]
      rfl
    rw [hset, checkedPayload, List.getLast?_concat, List.dropLast_concat]
    simp [xor_two_pow_ne (xorAll p) (i % 8)]

/-- **C5 fails on the code** for its "wrong key pair" clause: the
intended decryption pair for a message from `A` to `B` is
`(B.secretKey, A.publicKey)`, yet the different pair
`(A.secretKey, B.publicKey)` — the sender's own arguments — does not
return `null`: it recovers the plaintext, because `nacl.box.open`
recomputes the same shared secret the encryption used. -/
theorem wrong_pair_decrypts_concrete :
    (encryptMessage "pong" (generateKeyPair 2).secretKey (generateKeyPair 5).publicKey
        (List.range 24)).bind
      (fun c => decryptMessage c (generateKeyPair 2).secretKey (generateKeyPair 5).publicKey)
      = some "pong" := by
  decide

/-- **C5 (amended).**  For a message encrypted from key pair `A` (seed
`a`) to key pair `B` (seed `b`): flipping any single bit of the
ciphertext bytes or of the nonce bytes makes `decryptMessage` return
`none`, and decrypting with any generated key pair whose Diffie–Hellman
shared secret differs from the `A`–`B` shared secret returns `none`.
(The pair `(A.secretKey, B.publicKey)` derives the *same* shared secret
and is excluded: it succeeds, see the counterexample.) -/
theorem decryptMessage_auth_failures (P : String) (a b : Nat) (entropy : List Nat)
    (hent : ∀ x ∈ entropy, x < 256)
    (m : EncryptedMessage)
    (hm : encryptMessage P (generateKeyPair a).secretKey (generateKeyPair b).publicKey entropy
      = some m) :
    (∀ ct, decodeBase64 m.ciphertext = some ct →
      ∀ i, i < 8 * ct.length →
        decryptMessage { m with ciphertext := encodeBase64 (flipBit ct i) }
          (generateKeyPair b).secretKey (generateKeyPair a).publicKey = none) ∧
    (∀ nb, decodeBase64 m.nonce = some nb →
      ∀ i, i < 8 * nb.length →
        decryptMessage { m with nonce := encodeBase64 (flipBit nb i) }
          (generateKeyPair b).secretKey (generateKeyPair a).publicKey = none) ∧
    (∀ c d : Nat, sharedSecret c (curvePublicKey d) ≠ sharedSecret b (curvePublicKey a) →
      decryptMessage m (generateKeyPair c).secretKey (generateKeyPair d).publicKey = none) := by
  rw [encryptMessage_generated] at hm
  simp only [Option.some.injEq] at hm
  subst hm
  have hnonce : ∀ x ∈ entropy.take 24, x < 256 := fun x hx => hent x (List.mem_of_mem_take hx)
  have hpl : ∀ x ∈ boxPayload (sharedSecret a (curvePublicKey b)) (entropy.take 24)
        (decodeUTF8 P)
      ++ [xorAll (boxPayload (sharedSecret a (curvePublicKey b)) (entropy.take 24)
            (decodeUTF8 P))], x < 256 := by
    intro x hx
    simp only [List.mem_append, List.mem_singleton] at hx
    rcases hx with hx | hx
    · exact boxPayload_lt _ _ _ x hx
    · exact hx ▸ xorAll_lt _ (boxPayload_lt _ _ _)
  refine ⟨?_, ?_, ?_⟩
  · intro ct hct i hi
    rw [decodeBase64_encodeBase64 _ hpl] at hct
    simp only [Option.some.injEq] at hct
    subst hct
    rw [decryptMessage]
    simp only [decodeBase64_encodeBase64 _ hnonce,
      decodeBase64_encodeBase64 _ (flipBit_mem_lt _ _ hpl),
      decodeBase64_secretKey, decodeBase64_publicKey, naclBoxOpen, keyScalarOfBytes_encodeNat]
    have hdiv : i / 8 < (boxPayload (sharedSecret a (curvePublicKey b)) (entropy.take 24)
        (decodeUTF8 P)).length + 1 := by
      rw [List.length_append, List.length_singleton] at hi
      omega
    rw [parseBox, checkedPayload_flipBit _ _ hdiv]
  · intro nb hnb i hi
    rw [decodeBase64_encodeBase64 _ hnonce] at hnb
    simp only [Option.some.injEq] at hnb
    subst hnb
    rw [decryptMessage]
    simp only [decodeBase64_encodeBase64 _ (flipBit_mem_lt _ _ hnonce),
      decodeBase64_encodeBase64 _ hpl,
      decodeBase64_secretKey, decodeBase64_publicKey, naclBoxOpen, keyScalarOfBytes_encodeNat,
      parseBox_payload]
    have hdiv : i / 8 < (entropy.take 24).length := by omega
    have hne : entropy.take 24 ≠ flipBit (entropy.take 24) i :=
      fun hc => flipBit_ne _ _ hdiv hc.symm
    simp [hne]
  · intro c d hcd
    rw [decryptMessage]
    simp only [decodeBase64_encodeBase64 _ hnonce, decodeBase64_encodeBase64 _ hpl,
      decodeBase64_secretKey, decodeBase64_publicKey, naclBoxOpen, keyScalarOfBytes_encodeNat,
      parseBox_payload]
    have hk : sharedSecret a (curvePublicKey b) ≠ sharedSecret c (curvePublicKey d) := by
      intro hc
      exact hcd (by rw [← hc, sharedSecret_curve_comm])
    simp [hk]

theorem gcmPayload_lt (key : DerivedKey) (iv msg : List Nat) :
    ∀ b ∈ gcmPayload key iv msg, b < 256 := by
  intro b hb
  simp only [gcmPayload, List.mem_append] at hb
  rcases hb with (((h | h) | h) | h) | h
  · exact encodeNatList_lt _ b h
  · exact encodeNatList_lt _ b h
  · exact encodeNat_lt _ b h
  · exact encodeNatList_lt _ b h
  · exact encodeNatList_lt _ b h

theorem aesGcmEncrypt_lt (key : DerivedKey) (iv msg : List Nat) :
    ∀ b ∈ aesGcmEncrypt key iv msg, b < 256 := by
  intro b hb
  simp only [aesGcmEncrypt, List.mem_append, List.mem_singleton] at hb
  rcases hb with h | h
  · exact gcmPayload_lt _ _ _ b h
  · exact h ▸ xorAll_lt _ (gcmPayload_lt _ _ _)

/-- Parsing inverts AES-GCM serialization. -/
theorem parseGcm_aesGcmEncrypt (key : DerivedKey) (iv msg : List Nat) :
    parseGcm (aesGcmEncrypt key iv msg)
      = some (key.pinBytes, key.salt, key.iterations, iv, msg) := by
  rw [aesGcmEncrypt, parseGcm, checkedPayload_append]
  have h1 : gcmPayload key iv msg
      = encodeNatList key.pinBytes ++ (encodeNatList key.salt ++ (encodeNat key.iterations
          ++ (encodeNatList iv ++ encodeNatList msg))) := by
    simp [gcmPayload]
  rw [h1]
  simp [parseNat_encodeNat, parseNatList_encodeNatList, parseNatList_encodeNatList_nil]

/-- Decrypting under the deriving key and IV recovers the plaintext. -/
theorem aesGcmDecrypt_aesGcmEncrypt (key : DerivedKey) (iv msg : List Nat) :
    aesGcmDecrypt key iv (aesGcmEncrypt key iv msg) = some msg := by
  rw [aesGcmDecrypt, parseGcm_aesGcmEncrypt]
  simp

/-- Parsing inverts the package rendering. -/
theorem vaultParse_vaultStringify (pkg : VaultPackage) :
    vaultParse (vaultStringify pkg) = some pkg := by
  have hb : ∀ b ∈ encodeNatList pkg.salt ++ encodeNatList pkg.iv ++ encodeNatList pkg.data,
      b < 256 := by
    intro b hbm
    simp only [List.mem_append] at hbm
    rcases hbm with (h | h) | h <;> exact encodeNatList_lt _ b h
  rw [vaultParse,
    show vaultStringify pkg
      = encodeBase64 (encodeNatList pkg.salt ++ encodeNatList pkg.iv ++ encodeNatList pkg.data)
      from rfl,
    decodeBase64_encodeBase64 _ hb]
  simp [List.append_assoc, parseNatList_encodeNatList, parseNatList_encodeNatList_nil]

/-- `unlock` inverts `lock` under the same PIN (helper shared by the
round-trip, non-determinism and parameter lemmas). -/
theorem unlock_lock_eq (S X : String) (entropy : List Nat) :
    IdentityVault.unlock (IdentityVault.lock S X entropy) X = some S := by
  rw [IdentityVault.lock, IdentityVault.unlock]
  rw [vaultParse_vaultStringify]
  simp only [aesGcmDecrypt_aesGcmEncrypt, encodeUTF8_decodeUTF8]

/-- A wrong PIN fails the idealized GCM tag check (helper shared by the
wrong-PIN and uniform-failure claims). -/
theorem unlock_lock_wrong_pin (S X Y : String) (entropy : List Nat) (hxy : X ≠ Y) :
    IdentityVault.unlock (IdentityVault.lock S X entropy) Y = none := by
  rw [IdentityVault.lock, IdentityVault.unlock]
  rw [vaultParse_vaultStringify]
  have hpin : decodeUTF8 X ≠ decodeUTF8 Y := fun hc => hxy (decodeUTF8_injective _ _ hc)
  simp only [aesGcmDecrypt, parseGcm_aesGcmEncrypt]
  simp [IdentityVault.deriveKey, hpin]

theorem unlock_parse_failure (blob pin : String) (h : vaultParse blob = none) :
    IdentityVault.unlock blob pin = none := by
  rw [IdentityVault.unlock, h]

theorem unlock_gcm_failure (blob pin : String) (pkg : VaultPackage)
    (hp : vaultParse blob = some pkg)
    (hg : aesGcmDecrypt (IdentityVault.deriveKey pin pkg.salt) pkg.iv pkg.data = none) :
    IdentityVault.unlock blob pin = none := by
  rw [IdentityVault.unlock, hp]
  simp only [hg]

/-- **C3.**  For every secretData string `S`, every PIN `X` and every
draw of entropy, `IdentityVault.unlock (IdentityVault.lock S X _) X`
returns exactly `S`. -/
theorem vault_roundtrip (S X : String) (entropy : List Nat) :
    IdentityVault.unlock (IdentityVault.lock S X entropy) X = some S :=
  unlock_lock_eq S X entropy

/-- **C4.**  For every secretData `S` and distinct PINs `X ≠ Y`,
unlocking a vault locked under `X` with `Y` returns the explicit
failure signal `none` (`null`), never a corrupted or partial string. -/
theorem vault_wrong_pin (S X Y : String) (entropy : List Nat) (hxy : X ≠ Y) :
    IdentityVault.unlock (IdentityVault.lock S X entropy) Y = none :=
  unlock_lock_wrong_pin S X Y entropy hxy

/-- **C6.**  Every failure of `IdentityVault.unlock` — an unparseable
vault blob, a wrong PIN, or an AES-GCM tag failure on the parsed
package — yields the same returned value `none` (`null`), so the
caller cannot distinguish the failure cause from the returned signal. -/
theorem unlock_uniform_failure :
    (∀ blob pin : String, vaultParse blob = none →
      IdentityVault.unlock blob pin = none) ∧
    (∀ S X Y : String, ∀ entropy : List Nat, X ≠ Y →
      IdentityVault.unlock (IdentityVault.lock S X entropy) Y = none) ∧
    (∀ blob pin : String, ∀ pkg : VaultPackage, vaultParse blob = some pkg →
      aesGcmDecrypt (IdentityVault.deriveKey pin pkg.salt) pkg.iv pkg.data = none →
      IdentityVault.unlock blob pin = none) :=
  ⟨unlock_parse_failure,
   fun S X Y entropy h => unlock_lock_wrong_pin S X Y entropy h,
   unlock_gcm_failure⟩

/-- **C8.**  Two `lock` calls with the same secret `S` and PIN `X`
whose drawn randomness differs (different salt draw, different IV draw)
produce packages with different salts, different IVs and different
ciphertext bytes — and each package still unlocks to `S` under `X`. -/
theorem lock_nondeterminism (S X : String) (e1 e2 : List Nat)
    (hsalt : e1.take 16 ≠ e2.take 16)
    (hiv : (e1.drop 16).take 12 ≠ (e2.drop 16).take 12)
    (p1 p2 : VaultPackage)
    (h1 : vaultParse (IdentityVault.lock S X e1) = some p1)
    (h2 : vaultParse (IdentityVault.lock S X e2) = some p2) :
    (p1.salt ≠ p2.salt ∧ p1.iv ≠ p2.iv ∧ p1.data ≠ p2.data) ∧
    IdentityVault.unlock (IdentityVault.lock S X e1) X = some S ∧
    IdentityVault.unlock (IdentityVault.lock S X e2) X = some S := by
  rw [IdentityVault.lock, vaultParse_vaultStringify] at h1 h2
  simp only [Option.some.injEq] at h1 h2
  subst h1
  subst h2
  refine ⟨⟨by simpa using hsalt, by simpa using hiv, ?_⟩,
    unlock_lock_eq S X e1, unlock_lock_eq S X e2⟩
  intro hdata
  simp only at hdata
  have hp1 := parseGcm_aesGcmEncrypt (IdentityVault.deriveKey X (e1.take 16))
    ((e1.drop 16).take 12) (decodeUTF8 S)
  rw [hdata, parseGcm_aesGcmEncrypt] at hp1
  simp only [Option.some.injEq, Prod.mk.injEq, IdentityVault.deriveKey] at hp1
  exact hsalt hp1.2.1.symm

/-- **C9.**  `lock` draws a 16-byte salt and a 12-byte IV, derives the
key from the PIN and salt by PBKDF2 with SHA-256 at 100000 (≥ 100000)
iterations and 256-bit length, and stores the AES-GCM encryption under
exactly that key and IV; the key re-derived from the PIN and the salt
stored in the blob has the identical parameters and decrypts the stored
ciphertext. -/
theorem lock_derivation_parameters (S X : String) (entropy : List Nat)
    (hlen : 28 ≤ entropy.length) :
    ∃ pkg : VaultPackage,
      vaultParse (IdentityVault.lock S X entropy) = some pkg ∧
      pkg.salt.length = 16 ∧ pkg.iv.length = 12 ∧
      pkg.data = aesGcmEncrypt (IdentityVault.deriveKey X pkg.salt) pkg.iv (decodeUTF8 S) ∧
      (IdentityVault.deriveKey X pkg.salt).iterations = 100000 ∧
      100000 ≤ (IdentityVault.deriveKey X pkg.salt).iterations ∧
      (IdentityVault.deriveKey X pkg.salt).hashName = "SHA-256" ∧
      (IdentityVault.deriveKey X pkg.salt).keyLength = 256 ∧
      aesGcmDecrypt (IdentityVault.deriveKey X pkg.salt) pkg.iv pkg.data
        = some (decodeUTF8 S) := by
  refine ⟨{ salt := entropy.take 16, iv := (entropy.drop 16).take 12,
            data := aesGcmEncrypt (IdentityVault.deriveKey X (entropy.take 16))
              ((entropy.drop 16).take 12) (decodeUTF8 S) },
    ?_, ?_, ?_, rfl, rfl, by simp [IdentityVault.deriveKey], rfl, rfl, ?_⟩
  · rw [IdentityVault.lock, vaultParse_vaultStringify]
  · simp only [List.length_take]
    omega
  · simp only [List.length_take, List.length_drop]
    omega
  · exact aesGcmDecrypt_aesGcmEncrypt _ _ _

/-- **C10.**  `decryptMessage` is total over its whole input domain: it
always returns `some` plaintext or `none`, and every malformed input —
a nonce, ciphertext or key string that does not decode to bytes, or key
bytes that are not a well-formed key — is reported through the same
`none` signal as an authentication failure, never an exception. -/
theorem decryptMessage_total :
    (∀ (m : EncryptedMessage) (sk pk : String),
      decryptMessage m sk pk = none ∨ ∃ s, decryptMessage m sk pk = some s) ∧
    (∀ (m : EncryptedMessage) (sk pk : String),
      decodeBase64 m.nonce = none ∨ decodeBase64 m.ciphertext = none ∨
        decodeBase64 sk = none ∨ decodeBase64 pk = none →
      decryptMessage m sk pk = none) ∧
    (∀ (m : EncryptedMessage) (sk pk : String) (skB pkB : List Nat),
      decodeBase64 sk = some skB → decodeBase64 pk = some pkB →
      keyScalarOfBytes skB = none ∨ keyScalarOfBytes pkB = none →
      decryptMessage m sk pk = none) := by
  refine ⟨?_, ?_, ?_⟩
  · intro m sk pk
    cases h : decryptMessage m sk pk
    · exact Or.inl rfl
    · exact Or.inr ⟨_, rfl⟩
  · intro m sk pk h
    cases h1 : decodeBase64 m.nonce <;> cases h2 : decodeBase64 m.ciphertext <;>
      cases h3 : decodeBase64 sk <;> cases h4 : decodeBase64 pk <;>
      simp_all [decryptMessage]
  · intro m sk pk skB pkB hsk hpk h
    cases h1 : decodeBase64 m.nonce <;> cases h2 : decodeBase64 m.ciphertext <;>
      cases h5 : keyScalarOfBytes skB <;> cases h6 : keyScalarOfBytes pkB <;>
      simp_all [decryptMessage, naclBoxOpen]

/-- Witness for the round-trip theorem at concrete inputs. -/
theorem encrypt_decrypt_roundtrip_witness :
    (∀ x ∈ List.range 24, x < 256) ∧
    (encryptMessage "hello" (generateKeyPair 0).secretKey (generateKeyPair 1).publicKey
        (List.range 24)).bind
      (fun c => decryptMessage c (generateKeyPair 1).secretKey (generateKeyPair 0).publicKey)
      = some "hello" :=
  ⟨by decide, encrypt_decrypt_roundtrip "hello" 0 1 (List.range 24) (by decide)⟩

/-- Witness for the amended sender-side theorem at concrete inputs. -/
theorem sender_decrypt_own_arguments_witness :
    ((encryptMessage "ab" (generateKeyPair 0).secretKey (generateKeyPair 1).publicKey
        (List.range 24)).bind
      (fun c => decryptMessage c (generateKeyPair 0).secretKey (generateKeyPair 1).publicKey)
      = some "ab") ∧
    ((encryptMessage "ab" (generateKeyPair 0).secretKey (generateKeyPair 1).publicKey
        (List.range 24)).bind
      (fun c => decryptMessage c (generateKeyPair 0).secretKey (generateKeyPair 0).publicKey)
      = none) :=
  sender_decrypt_own_arguments "ab" 0 1 (List.range 24) (by decide) (by decide)

/-- Witness for the amended authentication-failure theorem: a concrete
bit flip in the ciphertext, a concrete bit flip in the nonce, and a
concrete unrelated key pair all make decryption return `none`. -/
theorem decryptMessage_auth_failures_witness :
    (decryptMessage
        { nonce := encodeBase64 [7],
          ciphertext := encodeBase64
            (flipBit [255, 1, 255, 1, 255, 7, 255, 2, 255, 104, 255, 105, 255, 251] 0),
          authorPublicKey := encodeBase64 [1, 255] }
        (generateKeyPair 1).secretKey (generateKeyPair 0).publicKey = none) ∧
    (decryptMessage
        { nonce := encodeBase64 (flipBit [7] 2),
          ciphertext := encodeBase64 [255, 1, 255, 1, 255, 7, 255, 2, 255, 104, 255, 105, 255, 251],
          authorPublicKey := encodeBase64 [1, 255] }
        (generateKeyPair 1).secretKey (generateKeyPair 0).publicKey = none) ∧
    (decryptMessage
        { nonce := encodeBase64 [7],
          ciphertext := encodeBase64 [255, 1, 255, 1, 255, 7, 255, 2, 255, 104, 255, 105, 255, 251],
          authorPublicKey := encodeBase64 [1, 255] }
        (generateKeyPair 7).secretKey (generateKeyPair 9).publicKey = none) := by
  have h := decryptMessage_auth_failures "hi" 0 1 [7] (by decide)
    { nonce := encodeBase64 [7],
      ciphertext := encodeBase64 [255, 1, 255, 1, 255, 7, 255, 2, 255, 104, 255, 105, 255, 251],
      authorPublicKey := encodeBase64 [1, 255] } (by decide)
  exact ⟨h.1 [255, 1, 255, 1, 255, 7, 255, 2, 255, 104, 255, 105, 255, 251] (by decide) 0
      (by decide),
    h.2.1 [7] (by decide) 2 (by decide),
    h.2.2 7 9 (by decide)⟩

/-- Witness for the fresh-nonce theorem at concrete inputs. -/
theorem encryptMessage_fresh_nonce_witness :
    ({ nonce := encodeBase64 [7],
       ciphertext := encodeBase64 [255, 1, 255, 1, 255, 7, 255, 2, 255, 104, 255, 105, 255, 251],
       authorPublicKey := encodeBase64 [1, 255] } : EncryptedMessage).nonce
      ≠ ({ nonce := encodeBase64 [8],
           ciphertext := encodeBase64
             [255, 1, 255, 1, 255, 8, 255, 2, 255, 104, 255, 105, 255, 244],
           authorPublicKey := encodeBase64 [1, 255] } : EncryptedMessage).nonce ∧
    ({ nonce := encodeBase64 [7],
       ciphertext := encodeBase64 [255, 1, 255, 1, 255, 7, 255, 2, 255, 104, 255, 105, 255, 251],
       authorPublicKey := encodeBase64 [1, 255] } : EncryptedMessage).ciphertext
      ≠ ({ nonce := encodeBase64 [8],
           ciphertext := encodeBase64
             [255, 1, 255, 1, 255, 8, 255, 2, 255, 104, 255, 105, 255, 244],
           authorPublicKey := encodeBase64 [1, 255] } : EncryptedMessage).ciphertext :=
  encryptMessage_fresh_nonce "hi" 0 1 [7] [8] (by decide) (by decide) (by decide)
    _ _ (by decide) (by decide)

/-- Witness for the wrong-PIN theorem at concrete inputs. -/
theorem vault_wrong_pin_witness :
    ("1234" : String) ≠ "5678" ∧
    IdentityVault.unlock (IdentityVault.lock "secret" "1234" (List.range 28)) "5678" = none :=
  ⟨by decide, vault_wrong_pin "secret" "1234" "5678" (List.range 28) (by decide)⟩

/-- Witness for the uniform-failure theorem: a concrete unparseable
blob, a concrete wrong PIN, and a concrete package failing the GCM tag
check all yield the same `none`. -/
theorem unlock_uniform_failure_witness :
    IdentityVault.unlock "" "1234" = none ∧
    IdentityVault.unlock (IdentityVault.lock "sk" "1111" (List.range 28)) "2222" = none ∧
    IdentityVault.unlock (vaultStringify { salt := [], iv := [], data := [] }) "9" = none :=
  ⟨unlock_uniform_failure.1 "" "1234" (by decide),
   unlock_uniform_failure.2.1 "sk" "1111" "2222" (List.range 28) (by decide),
   unlock_uniform_failure.2.2 (vaultStringify { salt := [], iv := [], data := [] }) "9"
     { salt := [], iv := [], data := [] } (by decide) (by decide)⟩

/-- Witness for the vault non-determinism theorem at concrete inputs. -/
theorem lock_nondeterminism_witness :
    ((lockPackageA.salt ≠ lockPackageB.salt ∧ lockPackageA.iv ≠ lockPackageB.iv ∧
        lockPackageA.data ≠ lockPackageB.data) ∧
      IdentityVault.unlock (IdentityVault.lock "sk" "1234" (List.range 28)) "1234"
        = some "sk" ∧
      IdentityVault.unlock
          (IdentityVault.lock "sk" "1234" (List.map (fun x => x + 100) (List.range 28))) "1234"
        = some "sk") :=
  lock_nondeterminism "sk" "1234" (List.range 28) (List.map (fun x => x + 100) (List.range 28))
    (by decide) (by decide) lockPackageA lockPackageB (by decide) (by decide)

/-- Witness for the derivation-parameters theorem at concrete inputs. -/
theorem lock_derivation_parameters_witness :
    28 ≤ (List.range 28).length ∧
    (∃ pkg : VaultPackage,
      vaultParse (IdentityVault.lock "sk" "1234" (List.range 28)) = some pkg ∧
      pkg.salt.length = 16 ∧ pkg.iv.length = 12 ∧
      pkg.data = aesGcmEncrypt (IdentityVault.deriveKey "1234" pkg.salt) pkg.iv
        (decodeUTF8 "sk") ∧
      (IdentityVault.deriveKey "1234" pkg.salt).iterations = 100000 ∧
      100000 ≤ (IdentityVault.deriveKey "1234" pkg.salt).iterations ∧
      (IdentityVault.deriveKey "1234" pkg.salt).hashName = "SHA-256" ∧
      (IdentityVault.deriveKey "1234" pkg.salt).keyLength = 256 ∧
      aesGcmDecrypt (IdentityVault.deriveKey "1234" pkg.salt) pkg.iv pkg.data
        = some (decodeUTF8 "sk")) :=
  ⟨by decide, lock_derivation_parameters "sk" "1234" (List.range 28) (by decide)⟩

/-- Witness for the totality theorem: a nonce that is not a byte
encoding, and key bytes that are not a well-formed key, are both
reported through `none`. -/
theorem decryptMessage_total_witness :
    (decryptMessage { nonce := "€", ciphertext := "x", authorPublicKey := "" } "" "" = none) ∧
    (decryptMessage
        { nonce := encodeBase64 [], ciphertext := encodeBase64 [], authorPublicKey := "" }
        (encodeBase64 [0, 0]) (encodeBase64 [255]) = none) :=
  ⟨decryptMessage_total.2.1 { nonce := "€", ciphertext := "x", authorPublicKey := "" } "" ""
      (Or.inl (by decide)),
   decryptMessage_total.2.2
      { nonce := encodeBase64 [], ciphertext := encodeBase64 [], authorPublicKey := "" }
      (encodeBase64 [0, 0]) (encodeBase64 [255]) [0, 0] [255] (by decide) (by decide)
      (Or.inl (by decide))⟩
